import Mathlib

/-!
Verification of `simple-cache` (`src/lib.rs`): a memoizing key/value cache
`HashCache<K, V, S, F>` holding an `RwLock<HashMap<K, PinBox<V>, S>>` together
with a default provider `F`.

Shallow embedding conventions:
* The `RwLock` and all locking is sequentialised away; every operation is a
  pure function from the cache state (threads interleave at operation
  granularity, which is exactly the atomicity the lock provides).
* `std::collections::HashMap<K, PinBox<V>, S>` is modelled as a hasher of
  type `S` together with an association list of entries; `HashMap::get`
  is the first matching entry.  Reachable tables have no duplicate keys.
* `PinBox<V>` is an owning one-field wrapper; address stability of its heap
  payload is a memory-layout property outside the embedding, but its
  observable API (`new`, `as_ref`) is embedded.
* The borrowed key forms (`Q: Hash + Eq` with `K: Borrow<Q>`) are embedded by
  an explicit function `borrow : K → Q`; the owned-key instantiation is
  `Q = K`, `borrow = id`, which the plain-`K` operations use.
* Operations that in Rust mutate through `&self` return the new cache state
  explicitly.  `get_or_insert`/`get_or_insert_with` additionally return the
  list of keys the provider closure was invoked with, so that "provider
  called exactly once" is expressible; this component is derived directly
  from the source control flow (the closure of `or_insert_with_key` runs
  exactly when the entry is vacant).
* A provider that fails (panics/unwinds in Rust) is modelled with `Except`:
  `std`'s entry API inserts nothing when the closure unwinds, and the
  poisoned lock is recovered by `arena`/`arena_mut`
  (`unwrap_or_else(|e| e.into_inner())`), so the state survives unchanged.
-/

namespace SimpleCache

universe u v w

/-- `PinBox<T>`: an owning wrapper around a boxed value that hands out only
read access (`as_ref`).  The payload-address stability it exists for is not
observable in the embedding; its value-level behaviour is. -/
structure PinBox (T : Type u) where
  value : T
deriving DecidableEq, Repr

/-- `PinBox::new(Box::new(x))`. -/
def PinBox.new {T : Type u} (x : T) : PinBox T := ⟨x⟩

/-- `PinBox::as_ref` (also its `Deref`): read the payload. -/
def PinBox.as_ref {T : Type u} (b : PinBox T) : T := b.value

/-- Model of `std::collections::HashMap<K, PinBox<V>, S>`: the build-hasher it
was constructed with plus its entries. -/
structure HashMapModel (K : Type u) (V : Type v) (S : Type w) where
  hasher : S
  entries : List (K × PinBox V)

variable {K : Type u} {V : Type v} {S : Type w} {F E Q : Type*}

/-- `HashMap::get` on the model: first entry whose key matches, if any.
The general borrowed-key form: the probe key has type `Q` and stored keys are
compared through `borrow` (Rust's `K: Borrow<Q>` with `Q: Eq`). -/
def HashMapModel.getQ [DecidableEq Q] (m : HashMapModel K V S) (borrow : K → Q)
    (q : Q) : Option (PinBox V) :=
  (m.entries.find? fun p => borrow p.1 = q).map Prod.snd

/-- `HashMap::get` at the owned key type (`Q = K`, `borrow = id`). -/
def HashMapModel.get [DecidableEq K] (m : HashMapModel K V S) (k : K) :
    Option (PinBox V) :=
  (m.entries.find? fun p => p.1 = k).map Prod.snd

/-- `HashMap::entry(key).or_insert_with_key(|k| PinBox::new(Box::new(f(k))))`:
if `key` is occupied return the existing box, else run the closure and insert.
Returns the resulting box, the resulting entries, and the list of keys the
closure `f` was invoked with. -/
def HashMapModel.or_insert_with_key [DecidableEq K] (m : HashMapModel K V S)
    (k : K) (f : K → V) : PinBox V × HashMapModel K V S × List K :=
  match m.get k with
  | some b => (b, m, [])
  | none => (PinBox.new (f k), ⟨m.hasher, m.entries ++ [(k, PinBox.new (f k))]⟩, [k])

/-- `HashMap::clear`: drops every entry, keeping the hasher (and capacity). -/
def HashMapModel.clear (m : HashMapModel K V S) : HashMapModel K V S :=
  ⟨m.hasher, []⟩

/-- `HashCache<K, V, S, F>`: the locked arena plus the default provider. -/
structure HashCache (K : Type u) (V : Type v) (S : Type w) (F : Type*) where
  arena : HashMapModel K V S
  provider : F

/-- `HashCacheConfig<S, F>`. -/
structure HashCacheConfig (S : Type w) (F : Type*) where
  capacity : Nat
  hasher : S
  provider : F

/-- `HashCache::with_config`: a fresh cache with the configured hasher and
provider.  The capacity hint only pre-sizes the table and is not observable
in the model. -/
def HashCache.with_config (config : HashCacheConfig S F) : HashCache K V S F :=
  { arena := ⟨config.hasher, []⟩, provider := config.provider }

/-- `HashCache::with_provider` (with the `S: Default` hasher). -/
def HashCache.with_provider [Inhabited S] (provider : F) : HashCache K V S F :=
  HashCache.with_config { capacity := 0, hasher := default, provider := provider }

/-- `HashCache::with_hasher` (provider `()`). -/
def HashCache.with_hasher (hasher : S) : HashCache K V S Unit :=
  HashCache.with_config { capacity := 0, hasher := hasher, provider := () }

/-- `HashCache::get<Q>`: read-lock the arena, look the key up, and return a
read into the found box (lock release is a no-op in the sequential model, so
the state is untouched and not returned). -/
def HashCache.getQ [DecidableEq Q] (c : HashCache K V S F) (borrow : K → Q)
    (q : Q) : Option V :=
  (c.arena.getQ borrow q).map PinBox.as_ref

/-- `HashCache::get` at the owned key type. -/
def HashCache.get [DecidableEq K] (c : HashCache K V S F) (k : K) : Option V :=
  (c.arena.get k).map PinBox.as_ref

/-- `HashCache::get_or_insert_with`: try `get` under the read lock and return
on a hit; otherwise take the owned key (`to_owned`, the identity at `Q = K`),
write-lock, and go through the entry API, which re-checks occupancy before
running the closure.  Returns the value, the new cache state, and the keys
the provider closure was invoked with. -/
def HashCache.get_or_insert_with [DecidableEq K] (c : HashCache K V S F)
    (k : K) (f : K → V) : V × HashCache K V S F × List K :=
  match c.get k with
  | some v => (v, c, [])
  | none =>
    match c.arena.or_insert_with_key k f with
    | (b, arena, calls) => (b.as_ref, { arena := arena, provider := c.provider }, calls)

/-- `HashCache::get_or_insert`: same body as `get_or_insert_with`, with the
provider fixed at construction time (`F: Fn(&K) -> V`). -/
def HashCache.get_or_insert [DecidableEq K] (c : HashCache K V S (K → V))
    (k : K) : V × HashCache K V S (K → V) × List K :=
  match c.get k with
  | some v => (v, c, [])
  | none =>
    match c.arena.or_insert_with_key k c.provider with
    | (b, arena, calls) => (b.as_ref, { arena := arena, provider := c.provider }, calls)

/-- `HashCache::get_or_insert_with` when the provider closure fails
(panics/unwinds in Rust, modelled as `Except.error`): `or_insert_with_key`
inserts nothing when its closure unwinds, the write lock is released as
poisoned, and the next `arena`/`arena_mut` recovers it with
`unwrap_or_else(|e| e.into_inner())`, so the pre-call state survives. -/
def HashCache.get_or_insert_withE [DecidableEq K] (c : HashCache K V S F)
    (k : K) (f : K → Except E V) : Except E V × HashCache K V S F :=
  match c.get k with
  | some v => (Except.ok v, c)
  | none =>
    match f k with
    | Except.error e => (Except.error e, c)
    | Except.ok v =>
        (Except.ok v,
         { arena := ⟨c.arena.hasher, c.arena.entries ++ [(k, PinBox.new v)]⟩,
           provider := c.provider })

/-- `HashCache::clear` (`&mut self`): clears the arena. -/
def HashCache.clear (c : HashCache K V S F) : HashCache K V S F :=
  { arena := c.arena.clear, provider := c.provider }

/-- One cache operation of the public API, for reasoning about arbitrary call
sequences. -/
inductive Op (K : Type u) (V : Type v) where
  | lookup (k : K)
  | getOrInsert (k : K)
  | getOrInsertWith (k : K) (f : K → V)

/-- The state after one operation: `get` takes `&self` and leaves the state
untouched; the insert operations thread their returned state. -/
def applyOp [DecidableEq K] (c : HashCache K V S (K → V)) :
    Op K V → HashCache K V S (K → V)
  | Op.lookup _ => c
  | Op.getOrInsert k => (c.get_or_insert k).2.1
  | Op.getOrInsertWith k f => (c.get_or_insert_with k f).2.1

/-- The state after a sequence of operations. -/
def applyOps [DecidableEq K] (c : HashCache K V S (K → V)) (ops : List (Op K V)) :
    HashCache K V S (K → V) :=
  ops.foldl applyOp c

/-! ### Helper lemmas -/

/-- A successful `find?` survives appending further entries. -/
theorem find?_append_of_some {α : Type u} {p : α → Bool} {l1 l2 : List α} {x : α}
    (h : l1.find? p = some x) : (l1 ++ l2).find? p = some x := by
  simp [List.find?_append, h]

/-- A failed `find?` defers to the appended entries. -/
theorem find?_append_of_none {α : Type u} {p : α → Bool} {l1 l2 : List α}
    (h : l1.find? p = none) : (l1 ++ l2).find? p = l2.find? p := by
  simp [List.find?_append, h]

/-- Unfolding `HashCache.get` to a `find?` over the entries. -/
theorem HashCache.get_eq [DecidableEq K] (c : HashCache K V S F) (k : K) :
    c.get k = ((c.arena.entries.find? fun p => p.1 = k).map Prod.snd).map PinBox.as_ref :=
  rfl

/-- `get` misses exactly when the underlying table lookup misses. -/
theorem HashCache.get_eq_none_iff [DecidableEq K] (c : HashCache K V S F) (k : K) :
    c.get k = none ↔ c.arena.get k = none := by
  simp [HashCache.get, Option.map_eq_none']

/-- `get` hits exactly when some found entry holds the value. -/
theorem HashCache.get_eq_some_iff [DecidableEq K] (c : HashCache K V S F) (k : K)
    (v : V) :
    c.get k = some v ↔
      ∃ p, (c.arena.entries.find? fun q => q.1 = k) = some p ∧ p.2.as_ref = v := by
  simp [HashCache.get, HashMapModel.get, Option.map_eq_some']

/-- `get_or_insert` is `get_or_insert_with` at the configured provider. -/
theorem HashCache.get_or_insert_eq_with [DecidableEq K]
    (c : HashCache K V S (K → V)) (k : K) :
    c.get_or_insert k = c.get_or_insert_with k c.provider :=
  rfl

/-- Hit path of `get_or_insert_with`: value returned, state untouched, no
provider invocation. -/
theorem HashCache.get_or_insert_with_hit [DecidableEq K] (c : HashCache K V S F)
    (k : K) (f : K → V) (v : V) (h : c.get k = some v) :
    c.get_or_insert_with k f = (v, c, []) := by
  simp [HashCache.get_or_insert_with, h]

/-- Miss path of `get_or_insert_with`: the provider runs once on the key and
the produced value is boxed and appended to the table. -/
theorem HashCache.get_or_insert_with_miss [DecidableEq K] (c : HashCache K V S F)
    (k : K) (f : K → V) (h : c.get k = none) :
    c.get_or_insert_with k f =
      (f k,
       ⟨⟨c.arena.hasher, c.arena.entries ++ [(k, PinBox.new (f k))]⟩, c.provider⟩,
       [k]) := by
  have h' : c.arena.get k = none := (c.get_eq_none_iff k).mp h
  simp [HashCache.get_or_insert_with, HashMapModel.or_insert_with_key, h, h',
    PinBox.as_ref, PinBox.new]

/-- Appending entries for other work never disturbs an existing hit. -/
theorem HashCache.get_append_of_some [DecidableEq K] {F' : Type*}
    {c : HashCache K V S F} {hs' : S} {pr' : F'} {l : List (K × PinBox V)}
    {k : K} {v : V} (h : c.get k = some v) :
    (HashCache.mk ⟨hs', c.arena.entries ++ l⟩ pr').get k = some v := by
  rcases (HashCache.get_eq_some_iff _ k v).mp h with ⟨p, hp, hv⟩
  exact (HashCache.get_eq_some_iff _ k v).mpr ⟨p, find?_append_of_some hp, hv⟩

/-- A present key keeps its value across any single API call. -/
theorem HashCache.get_applyOp_of_some [DecidableEq K]
    (c : HashCache K V S (K → V)) (op : Op K V) (k : K) (v : V)
    (h : c.get k = some v) : (applyOp c op).get k = some v := by
  have step : ∀ (k' : K) (f : K → V),
      ((c.get_or_insert_with k' f).2.1).get k = some v := by
    intro k' f
    cases hk' : c.get k' with
    | some w => rw [HashCache.get_or_insert_with_hit c k' f w hk']; exact h
    | none =>
      rw [HashCache.get_or_insert_with_miss c k' f hk']
      exact HashCache.get_append_of_some h
  cases op with
  | lookup _ => exact h
  | getOrInsert k' =>
      rw [applyOp, HashCache.get_or_insert_eq_with]; exact step k' c.provider
  | getOrInsertWith k' f => exact step k' f

/-- A present key keeps its value across any sequence of API calls. -/
theorem HashCache.get_applyOps_of_some [DecidableEq K]
    (c : HashCache K V S (K → V)) (ops : List (Op K V)) (k : K) (v : V)
    (h : c.get k = some v) : (applyOps c ops).get k = some v := by
  induction ops generalizing c with
  | nil => exact h
  | cons op ops ih =>
      exact ih (applyOp c op) (HashCache.get_applyOp_of_some c op k v h)

/-- Under key uniqueness, a member entry is what `find?` returns. -/
theorem find?_entries_of_mem [DecidableEq K] {l : List (K × PinBox V)} {k : K}
    {b : PinBox V} (hnd : (l.map Prod.fst).Nodup) (hm : (k, b) ∈ l) :
    (l.find? fun p => p.1 = k) = some (k, b) := by
  induction l with
  | nil => cases hm
  | cons a t ih =>
    rw [List.map_cons, List.nodup_cons] at hnd
    rcases List.mem_cons.mp hm with rfl | hm'
    · exact List.find?_cons_of_pos _ (by simp)
    · have hk : ¬(a.1 = k) := by
        intro hEq
        exact hnd.1 (hEq ▸ List.mem_map.mpr ⟨(k, b), hm', rfl⟩)
      rw [List.find?_cons_of_neg _ (by simpa using hk)]
      exact ih hnd.2 hm'

/-- A fresh miss entry appended to the table is found by `get`. -/
theorem HashCache.get_append_self [DecidableEq K] {F' : Type*}
    {c : HashCache K V S F} {hs' : S} {pr' : F'} {k : K} {b : PinBox V}
    (h : c.get k = none) :
    (HashCache.mk ⟨hs', c.arena.entries ++ [(k, b)]⟩ pr').get k = some b.as_ref := by
  have h' : (c.arena.entries.find? fun p => p.1 = k) = none := by
    simpa [HashCache.get, HashMapModel.get, Option.map_eq_none'] using h
  simp [HashCache.get, HashMapModel.get, find?_append_of_none h']

/-! ### Concrete instances used to instantiate the theorems -/

/-- A one-entry cache over `Nat` keys and values, provider `n * 2`. -/
def sampleCache : HashCache Nat Nat Unit (Nat → Nat) :=
  ⟨⟨(), [(1, PinBox.new 10)]⟩, fun n => n * 2⟩

/-- An empty cache over `Nat` keys and values, provider `n * 2`. -/
def emptyCache : HashCache Nat Nat Unit (Nat → Nat) :=
  ⟨⟨(), []⟩, fun n => n * 2⟩

/-! ### The claims -/

/-- C1: per-key persistence. Once a key holds a value, it still holds that
value after any sequence of `get`, `get_or_insert`, and `get_or_insert_with`
calls, for any keys and providers. -/
theorem spec_key_persistence [DecidableEq K] (c : HashCache K V S (K → V))
    (k : K) (v : V) (ops : List (Op K V)) (h : c.get k = some v) :
    (applyOps c ops).get k = some v :=
  HashCache.get_applyOps_of_some c ops k v h

/-- Witness for C1 at a concrete cache and operation sequence. -/
theorem spec_key_persistence_witness :
    sampleCache.get 1 = some 10 ∧
    (applyOps sampleCache
        [Op.getOrInsert 2, Op.lookup 1, Op.getOrInsertWith 3 fun n => n + 7]).get 1 =
      some 10 :=
  ⟨by decide, spec_key_persistence sampleCache 1 10 _ (by decide)⟩

/-- C2: miss-path postcondition. When the key is absent,
`get_or_insert_with` (and `get_or_insert` with the configured provider)
invokes the provider exactly once with the owned key, returns the produced
value, and leaves the key mapped to exactly that value. -/
theorem spec_miss_postcondition [DecidableEq K] (c : HashCache K V S (K → V))
    (k : K) (f : K → V) (h : c.get k = none) :
    (c.get_or_insert_with k f).2.2 = [k] ∧
    (c.get_or_insert_with k f).1 = f k ∧
    ((c.get_or_insert_with k f).2.1).get k = some (f k) ∧
    (c.get_or_insert k).2.2 = [k] ∧
    (c.get_or_insert k).1 = c.provider k ∧
    ((c.get_or_insert k).2.1).get k = some (c.provider k) := by
  rw [HashCache.get_or_insert_eq_with, HashCache.get_or_insert_with_miss c k f h,
    HashCache.get_or_insert_with_miss c k c.provider h]
  exact ⟨rfl, rfl, HashCache.get_append_self h, rfl, rfl, HashCache.get_append_self h⟩

/-- Witness for C2 at the empty cache. -/
theorem spec_miss_postcondition_witness :
    emptyCache.get 5 = none ∧
    ((emptyCache.get_or_insert_with 5 fun n => n + 1).2.2 = [5] ∧
     (emptyCache.get_or_insert_with 5 fun n => n + 1).1 = (fun n => n + 1) 5 ∧
     ((emptyCache.get_or_insert_with 5 fun n => n + 1).2.1).get 5 =
       some ((fun n => n + 1) 5) ∧
     (emptyCache.get_or_insert 5).2.2 = [5] ∧
     (emptyCache.get_or_insert 5).1 = emptyCache.provider 5 ∧
     ((emptyCache.get_or_insert 5).2.1).get 5 = some (emptyCache.provider 5)) :=
  ⟨by decide, spec_miss_postcondition emptyCache 5 (fun n => n + 1) (by decide)⟩

/-- C3: idempotent hit. When the key is already present, `get_or_insert`
returns the stored value, invokes no provider, changes nothing, and a second
call returns the identical stored value. -/
theorem spec_idempotent_hit [DecidableEq K] (c : HashCache K V S (K → V))
    (k : K) (v : V) (h : c.get k = some v) :
    c.get_or_insert k = (v, c, []) ∧
    ((c.get_or_insert k).2.1.get_or_insert k).1 = v := by
  have h1 : c.get_or_insert k = (v, c, []) := by
    rw [HashCache.get_or_insert_eq_with]
    exact HashCache.get_or_insert_with_hit c k c.provider v h
  exact ⟨h1, by rw [h1, h1]⟩

/-- Witness for C3 at a concrete one-entry cache. -/
theorem spec_idempotent_hit_witness :
    sampleCache.get 1 = some 10 ∧
    (sampleCache.get_or_insert 1 = (10, sampleCache, []) ∧
     ((sampleCache.get_or_insert 1).2.1.get_or_insert 1).1 = 10) :=
  ⟨by decide, spec_idempotent_hit sampleCache 1 10 (by decide)⟩

/-- C4: lookup contract. `get` mutates nothing, returns the stored value of a
present key, and returns `none` exactly when the key is absent from the
table (key-uniqueness of reachable tables is the hypothesis). -/
theorem spec_lookup_contract [DecidableEq K] (c : HashCache K V S (K → V))
    (k : K) (v : V) (hnd : (c.arena.entries.map Prod.fst).Nodup) :
    applyOp c (Op.lookup k) = c ∧
    (c.get k = some v ↔ (k, PinBox.new v) ∈ c.arena.entries) ∧
    (c.get k = none ↔ k ∉ c.arena.entries.map Prod.fst) := by
  refine ⟨rfl, ⟨?_, ?_⟩, ?_⟩
  · intro h
    rcases (HashCache.get_eq_some_iff c k v).mp h with ⟨p, hp, hv⟩
    have hk : p.1 = k := by simpa using List.find?_some hp
    have hb : p.2 = PinBox.new v := by
      cases hpb : p.2 with
      | mk w => cases hv; rw [hpb]; rfl
    have := List.mem_of_find?_eq_some hp
    rwa [show p = (k, PinBox.new v) from Prod.ext hk hb] at this
  · intro hm
    have := find?_entries_of_mem hnd hm
    exact (HashCache.get_eq_some_iff c k v).mpr ⟨(k, PinBox.new v), this, rfl⟩
  · rw [HashCache.get_eq, Option.map_eq_none', Option.map_eq_none',
      List.find?_eq_none]
    constructor
    · intro h hk
      rcases List.mem_map.mp hk with ⟨p, hp, hpk⟩
      exact absurd (by simpa using hpk) (by simpa using h p hp)
    · intro h p hp
      simp only [decide_eq_true_eq]
      intro hpk
      exact h (List.mem_map.mpr ⟨p, hp, hpk⟩)

/-- Witness for C4 at a concrete one-entry cache. -/
theorem spec_lookup_contract_witness :
    (sampleCache.arena.entries.map Prod.fst).Nodup ∧
    (applyOp sampleCache (Op.lookup 1) = sampleCache ∧
     (sampleCache.get 1 = some 10 ↔ (1, PinBox.new 10) ∈ sampleCache.arena.entries) ∧
     (sampleCache.get 1 = none ↔ 1 ∉ sampleCache.arena.entries.map Prod.fst)) :=
  ⟨by decide, spec_lookup_contract sampleCache 1 10 (by decide)⟩

/-- C5: provider-failure atomicity. If the key is absent and the provider
fails, the failure propagates and the cache state is exactly the pre-call
state, so every subsequent call behaves as on the pre-call state. -/
theorem spec_provider_failure_atomicity [DecidableEq K] {E : Type*}
    (c : HashCache K V S F) (k : K) (f : K → Except E V) (e : E)
    (h1 : c.get k = none) (h2 : f k = Except.error e) :
    c.get_or_insert_withE k f = (Except.error e, c) := by
  simp [HashCache.get_or_insert_withE, h1, h2]

/-- Witness for C5 at the empty cache with an always-failing provider. -/
theorem spec_provider_failure_atomicity_witness :
    emptyCache.get 5 = none ∧
    (fun _ : Nat => (Except.error "boom" : Except String Nat)) 5 =
      Except.error "boom" ∧
    emptyCache.get_or_insert_withE 5
        (fun _ => (Except.error "boom" : Except String Nat)) =
      (Except.error "boom", emptyCache) :=
  ⟨by decide, rfl,
   spec_provider_failure_atomicity emptyCache 5
     (fun _ => (Except.error "boom" : Except String Nat)) "boom" (by decide) rfl⟩

/-- C6: no cross-key interference. An insert operation for one key leaves the
presence and stored value of every other key exactly as before. -/
theorem spec_no_cross_key_interference [DecidableEq K]
    (c : HashCache K V S (K → V)) (k1 k2 : K) (f : K → V) (hne : k1 ≠ k2) :
    ((c.get_or_insert k2).2.1).get k1 = c.get k1 ∧
    ((c.get_or_insert_with k2 f).2.1).get k1 = c.get k1 := by
  have frame : ∀ g : K → V,
      ((c.get_or_insert_with k2 g).2.1).get k1 = c.get k1 := by
    intro g
    cases hk2 : c.get k2 with
    | some w => rw [HashCache.get_or_insert_with_hit c k2 g w hk2]
    | none =>
      rw [HashCache.get_or_insert_with_miss c k2 g hk2]
      cases hk1 : c.get k1 with
      | some v => exact HashCache.get_append_of_some hk1
      | none =>
        have h' : (c.arena.entries.find? fun p => p.1 = k1) = none := by
          simpa [HashCache.get, HashMapModel.get, Option.map_eq_none'] using hk1
        simp [HashCache.get, HashMapModel.get, find?_append_of_none h', Ne.symm hne]
  exact ⟨by rw [HashCache.get_or_insert_eq_with]; exact frame c.provider, frame f⟩

/-- Witness for C6 at a concrete one-entry cache and distinct keys. -/
theorem spec_no_cross_key_interference_witness :
    (1 : Nat) ≠ 2 ∧
    (((sampleCache.get_or_insert 2).2.1).get 1 = sampleCache.get 1 ∧
     ((sampleCache.get_or_insert_with 2 fun n => n + 3).2.1).get 1 =
       sampleCache.get 1) :=
  ⟨by decide, spec_no_cross_key_interference sampleCache 1 2 (fun n => n + 3) (by decide)⟩

/-- C7: clear invalidation. After `clear` the table is empty: `get` returns
`none` for every key. -/
theorem spec_clear_invalidation [DecidableEq K] (c : HashCache K V S F)
    (k : K) : (c.clear).get k = none :=
  rfl

/-- C8: borrowed-key equivalence. When the borrowed form compares identically
to the owned key (the `Borrow` contract: the borrow map respects equality
both ways, i.e. it is injective), `get` through the borrowed form of a key
returns exactly what `get` through the owned key returns. -/
theorem spec_borrowed_key_equivalence [DecidableEq K] [DecidableEq Q]
    (borrow : K → Q) (hinj : Function.Injective borrow)
    (c : HashCache K V S F) (k : K) :
    c.getQ borrow (borrow k) = c.get k := by
  have hpred : (fun p : K × PinBox V => decide (borrow p.1 = borrow k)) =
      fun p : K × PinBox V => decide (p.1 = k) :=
    funext fun p => decide_eq_decide.mpr hinj.eq_iff
  unfold HashCache.getQ HashCache.get HashMapModel.getQ HashMapModel.get
  rw [hpred]

/-- Witness for C8 with the injective borrow map `n + 1`. -/
theorem spec_borrowed_key_equivalence_witness :
    Function.Injective (fun n : Nat => n + 1) ∧
    sampleCache.getQ (fun n => n + 1) 2 = sampleCache.get 1 :=
  ⟨fun a b h => by simpa using h,
   spec_borrowed_key_equivalence (fun n => n + 1) (fun a b h => by simpa using h)
     sampleCache 1⟩

/-- C9: default-provider equivalence. `get_or_insert` is exactly
`get_or_insert_with` run at the provider configured at construction time:
same value, same resulting state, same provider invocations. -/
theorem spec_default_provider_equivalence [DecidableEq K]
    (c : HashCache K V S (K → V)) (k : K) :
    c.get_or_insert k = c.get_or_insert_with k c.provider :=
  rfl

/-- C10: clear touches only the table. `clear` keeps the hasher and the
provider, yields exactly a freshly configured cache, and a subsequent
`get_or_insert` invokes the originally configured provider once. -/
theorem spec_clear_frame [DecidableEq K] (c : HashCache K V S (K → V))
    (k : K) (n : Nat) :
    (c.clear).provider = c.provider ∧
    (c.clear).arena.hasher = c.arena.hasher ∧
    c.clear = HashCache.with_config ⟨n, c.arena.hasher, c.provider⟩ ∧
    ((c.clear).get_or_insert k).1 = c.provider k ∧
    ((c.clear).get_or_insert k).2.2 = [k] := by
  refine ⟨rfl, rfl, rfl, ?_, ?_⟩ <;>
    · rw [HashCache.get_or_insert_eq_with,
        HashCache.get_or_insert_with_miss (c.clear) k (c.clear).provider rfl]
      try rfl

end SimpleCache
